import Mathlib

/-!
Verification development for the Mahindra Personal RTO Dashboard
(main.py): a shallow embedding of its ingestion helpers, caching
policy, and aggregation pipeline, with theorems about the specified
properties.

String operations from the source (strip, upper-casing, comma removal,
substring search) are modelled over the character list of the string,
so that all definitions reduce in the kernel.
-/

namespace RTODash

/-! ### Python string-operation models -/

/-- Model of Python str.upper on the character list of a string
(ASCII-level, via Char.toUpper). -/
def upperList (s : String) : List Char :=
  s.toList.map Char.toUpper

/-- Model of Python str.strip: drop whitespace from both ends. -/
def pyStrip (cs : List Char) : List Char :=
  ((cs.dropWhile Char.isWhitespace).reverse.dropWhile Char.isWhitespace).reverse

/-! ### Cell coercion: the helper named with a leading underscore and
the words safe int in main.py (lines 87-98) -/

/-- A spreadsheet cell value as seen by the cell-coercion helper:
missing/NaN, a numeric cell (modelled as an integer), or a string.
Fractional numeric text is handled through the string case; exponent
forms are not modelled. -/
inductive Cell where
  | blank : Cell
  | num : Int → Cell
  | str : String → Cell
deriving DecidableEq, Repr

/-- Value of a nonempty digit sequence. -/
def digitsVal (cs : List Char) : Int :=
  cs.foldl (fun a c => a * 10 + ((c.toNat : Int) - (('0').toNat : Int))) 0

/-- Model of pandas to_numeric on a trimmed, comma-free string followed
by Python int(), which truncates toward zero: an optional sign, then
digits with an optional fractional part. Anything else fails to parse. -/
def parseNumTrunc (cs : List Char) : Option Int :=
  let sgnRest : Int × List Char :=
    match cs with
    | '-' :: r => (-1, r)
    | '+' :: r => (1, r)
    | r => (1, r)
  let sgn := sgnRest.1
  let rest := sgnRest.2
  let intPart := rest.takeWhile Char.isDigit
  let rest2 := rest.dropWhile Char.isDigit
  match rest2 with
  | [] => if intPart.isEmpty then none else some (sgn * digitsVal intPart)
  | '.' :: frac =>
      if frac.all Char.isDigit && !(intPart.isEmpty && frac.isEmpty) then
        some (sgn * digitsVal intPart)
      else none
  | _ => none

/-- Coercion of the cleaned string content (already stripped and
comma-free): empty gives 0, unparseable gives 0, otherwise the
truncated numeric value. -/
def strVal (t : List Char) : Int :=
  if t.isEmpty then 0
  else
    match parseNumTrunc t with
    | some v => v
    | none => 0

/-- Embedding of the cell-coercion helper of main.py (lines 87-98):
missing values give 0; strings are stripped, commas are removed, the
empty string gives 0, and an unparseable remainder gives 0; numeric
values are truncated to an integer. Negative values pass through. -/
def safe_int (x : Cell) : Int :=
  match x with
  | Cell.blank => 0
  | Cell.num n => n
  | Cell.str s => strVal ((pyStrip s.toList).filter (fun c => c != ','))

/-! ### Region-code extraction: the helper that extracts the RTO code
from the file name in main.py (lines 101-106) -/

/-- Does the list start with the literal letters M, H followed by two
digits? If so, return that four-character token. This is the anchored
form of the regex pattern MH backslash-d twice used by the source. -/
def headMH (l : List Char) : Option (List Char) :=
  match l with
  | a :: b :: c :: d :: _ =>
      if a = 'M' ∧ b = 'H' ∧ c.isDigit ∧ d.isDigit then some [a, b, c, d] else none
  | _ => none

/-- Left-to-right regex search for the pattern MH followed by two
digits: the first position where headMH succeeds wins. -/
def searchMH (l : List Char) : Option (List Char) :=
  match l with
  | [] => none
  | c :: cs =>
      match headMH (c :: cs) with
      | some t => some t
      | none => searchMH cs

/-- Embedding of the RTO-extraction helper of main.py (lines 101-106):
search the upper-cased file stem for the first occurrence of MH
followed by two digits. The stem (file name without extension) is the
input; the Path machinery itself is filesystem glue. -/
def extract_rto (stem : String) : Option String :=
  (searchMH (upperList stem)).map (fun t => String.mk t)

/-- Spec-worded region extractor, for comparison with the code: the
spec describes the token as any two letters followed by exactly two
digits, first match in the upper-cased stem wins. -/
def headL2D2 (l : List Char) : Option (List Char) :=
  match l with
  | a :: b :: c :: d :: _ =>
      if a.isAlpha ∧ b.isAlpha ∧ c.isDigit ∧ d.isDigit then some [a, b, c, d] else none
  | _ => none

/-- Left-to-right search for the spec-worded two-letter two-digit
token. -/
def searchL2D2 (l : List Char) : Option (List Char) :=
  match l with
  | [] => none
  | c :: cs =>
      match headL2D2 (c :: cs) with
      | some t => some t
      | none => searchL2D2 cs

/-- Spec-worded extractor on a file stem. -/
def extract_region_spec (stem : String) : Option String :=
  (searchL2D2 (upperList stem)).map (fun t => String.mk t)

/-! ### C1 theorems -/

/-- C1 counterexample: the coercion helper is not non-negative. On the
numeric cell -5 it returns -5, and on the string cell "-7" it returns
-7, refuting the claim that its result is always at least 0. -/
theorem C1_counterexample :
    safe_int (Cell.num (-5)) = -5 ∧ ¬ (0 ≤ safe_int (Cell.num (-5))) ∧
    safe_int (Cell.str "-7") = -7 ∧ ¬ (0 ≤ safe_int (Cell.str "-7")) := by
  refine ⟨rfl, by decide, by decide, by decide⟩

/-- C1 (amended): the coercion helper is total and returns 0 on blank,
missing, empty-after-cleanup, or unparseable input, and otherwise
returns the (possibly negative) truncated numeric value: numeric cells
pass through unchanged, so negative numeric input yields a negative
result and the non-negativity part of the original claim does not hold. -/
theorem C1_safe_int_amended :
    safe_int Cell.blank = 0 ∧
    (∀ n : Int, safe_int (Cell.num n) = n) ∧
    (∀ s : String, ((pyStrip s.toList).filter (fun c => c != ',')).isEmpty = true →
      safe_int (Cell.str s) = 0) ∧
    (∀ s : String, parseNumTrunc ((pyStrip s.toList).filter (fun c => c != ',')) = none →
      safe_int (Cell.str s) = 0) ∧
    (∀ s : String, ∀ v : Int,
      parseNumTrunc ((pyStrip s.toList).filter (fun c => c != ',')) = some v →
      safe_int (Cell.str s) = v) ∧
    safe_int (Cell.str " 1,234 ") = 1234 ∧
    safe_int (Cell.str "abc") = 0 := by
  have hempty : ∀ t : List Char, t.isEmpty = true → strVal t = 0 := by
    intro t h
    unfold strVal
    rw [if_pos h]
  have hnone : ∀ t : List Char, parseNumTrunc t = none → strVal t = 0 := by
    intro t h
    unfold strVal
    by_cases he : t.isEmpty = true
    · rw [if_pos he]
    · rw [if_neg he, h]
  have hsome : ∀ (t : List Char) (v : Int), parseNumTrunc t = some v → strVal t = v := by
    intro t v h
    have hne : t.isEmpty ≠ true := by
      intro he
      rw [List.isEmpty_iff] at he
      rw [he] at h
      simp [parseNumTrunc] at h
    unfold strVal
    rw [if_neg hne, h]
  refine ⟨rfl, fun n => rfl, ?_, ?_, ?_, by decide, by decide⟩
  · intro s h
    exact hempty _ h
  · intro s h
    exact hnone _ h
  · intro s v hv
    exact hsome _ v hv

/-- C1 witness: the amended theorem applied at concrete inputs: the
string "xyz" is unparseable and coerces to 0, and the string "-42"
parses to the negative value -42. -/
theorem C1_witness :
    safe_int (Cell.str "xyz") = 0 ∧ safe_int (Cell.str "-42") = -42 := by
  exact ⟨C1_safe_int_amended.2.2.2.1 "xyz" (by decide),
         C1_safe_int_amended.2.2.2.2.1 "-42" (-42) (by decide)⟩

/-! ### C2 theorems -/

/-- C2 counterexample: the stem "KA05" contains a token of two letters
followed by exactly two digits (the spec-worded extractor returns it),
but the code extractor returns none, because the source regex matches
only the literal letters MH, not arbitrary letter pairs. -/
theorem C2_counterexample :
    extract_rto "KA05" = none ∧ extract_region_spec "KA05" = some "KA05" := by
  decide

theorem headMH_some_iff (l t : List Char) :
    headMH l = some t ↔
      ∃ d1 d2 rest, l = 'M' :: 'H' :: d1 :: d2 :: rest ∧
        d1.isDigit ∧ d2.isDigit ∧ t = ['M', 'H', d1, d2] := by
  rcases l with _ | ⟨a, _ | ⟨b, _ | ⟨c, _ | ⟨d, rest⟩⟩⟩⟩
  · simp [headMH]
  · simp [headMH]
  · simp [headMH]
  · simp [headMH]
  · constructor
    · intro h
      simp only [headMH] at h
      split at h
      · rename_i hcond
        obtain ⟨ha, hb, hc, hd⟩ := hcond
        subst ha; subst hb
        exact ⟨c, d, rest, rfl, hc, hd, by injection h with h; exact h.symm⟩
      · exact absurd h (by simp)
    · rintro ⟨d1, d2, rest2, heq, h1, h2, ht⟩
      injection heq with e1 heq; injection heq with e2 heq
      injection heq with e3 heq; injection heq with e4 heq
      subst e1; subst e2; subst e3; subst e4
      simp [headMH, h1, h2, ht]

theorem searchMH_isSome_iff (l : List Char) :
    (searchMH l).isSome = true ↔
      ∃ pre d1 d2 post, l = pre ++ 'M' :: 'H' :: d1 :: d2 :: post ∧
        d1.isDigit ∧ d2.isDigit := by
  induction l with
  | nil =>
      simp [searchMH]
  | cons c cs ih =>
      constructor
      · intro h
        simp only [searchMH] at h
        cases hh : headMH (c :: cs) with
        | some t =>
            rw [headMH_some_iff] at hh
            obtain ⟨d1, d2, rest, heq, h1, h2, _⟩ := hh
            exact ⟨[], d1, d2, rest, by simpa using heq, h1, h2⟩
        | none =>
            rw [hh] at h
            obtain ⟨pre, d1, d2, post, heq, h1, h2⟩ := ih.mp h
            exact ⟨c :: pre, d1, d2, post, by simp [heq], h1, h2⟩
      · rintro ⟨pre, d1, d2, post, heq, h1, h2⟩
        simp only [searchMH]
        cases hh : headMH (c :: cs) with
        | some t => simp
        | none =>
            rcases pre with _ | ⟨p, pre⟩
            · exfalso
              simp only [List.nil_append] at heq
              have : headMH (c :: cs) = some ['M', 'H', d1, d2] := by
                rw [headMH_some_iff]
                injection heq with e1 rest1
                exact ⟨d1, d2, post, by rw [e1, rest1], h1, h2, rfl⟩
              rw [this] at hh
              exact Option.noConfusion hh
            · injection heq with e1 rest1
              exact ih.mpr ⟨pre, d1, d2, post, rest1, h1, h2⟩

/-- C2 (amended): the extractor recognises the literal letters MH
followed by two digits, not arbitrary letter pairs: on any stem
it succeeds exactly when the upper-cased stem contains MH and then two
digits, any returned token has exactly that four-character shape, a
match at the current position takes priority over later ones (first
match wins), and it returns the token MH27 on the stem MH27_report. -/
theorem C2_extract_rto_amended :
    (∀ stem : String, (extract_rto stem).isSome = true ↔
      ∃ pre d1 d2 post, upperList stem = pre ++ 'M' :: 'H' :: d1 :: d2 :: post ∧
        d1.isDigit ∧ d2.isDigit) ∧
    (∀ l t, headMH l = some t → searchMH l = some t) ∧
    (∀ stem : String, ∀ t : String, extract_rto stem = some t →
      ∃ d1 d2, t = String.mk ['M', 'H', d1, d2] ∧ d1.isDigit ∧ d2.isDigit) ∧
    extract_rto "MH27_report" = some "MH27" ∧
    extract_rto "report2024" = none := by
  refine ⟨?_, ?_, ?_, by decide, by decide⟩
  · intro stem
    rw [← searchMH_isSome_iff]
    simp [extract_rto]
  · intro l t h
    rcases l with _ | ⟨c, cs⟩
    · simp [headMH] at h
    · simp only [searchMH, h]
  · intro stem t h
    simp only [extract_rto, Option.map_eq_some'] at h
    obtain ⟨tl, htl, rfl⟩ := h
    have hs : (searchMH (upperList stem)).isSome = true := by simp [htl]
    rw [searchMH_isSome_iff] at hs
    obtain ⟨pre, d1, d2, post, heq, h1, h2⟩ := hs
    rw [heq] at htl
    clear heq
    revert htl
    induction pre with
    | nil =>
        intro htl
        simp only [List.nil_append, searchMH] at htl
        have hh : headMH ('M' :: 'H' :: d1 :: d2 :: post) = some ['M', 'H', d1, d2] := by
          simp [headMH, h1, h2]
        rw [hh] at htl
        injection htl with htl
        exact ⟨d1, d2, by rw [← htl], h1, h2⟩
    | cons p pre ihp =>
        intro htl
        simp only [List.cons_append, searchMH, List.append_eq] at htl
        cases hh : headMH (p :: (pre ++ 'M' :: 'H' :: d1 :: d2 :: post)) with
        | some t2 =>
            rw [hh] at htl
            injection htl with htl
            rw [headMH_some_iff] at hh
            obtain ⟨e1, e2, rest, _, he1, he2, ht2⟩ := hh
            exact ⟨e1, e2, by rw [← htl, ht2], he1, he2⟩
        | none =>
            rw [hh] at htl
            exact ihp htl

/-- C2 witness: the amended theorem applied at the stem MH27_report:
the returned token has the MH-digit-digit shape. -/
theorem C2_witness :
    ∃ d1 d2, "MH27" = String.mk ['M', 'H', d1, d2] ∧ d1.isDigit ∧ d2.isDigit :=
  C2_extract_rto_amended.2.2.1 "MH27_report" "MH27" (by decide)

/-! ### The canonical record set

One row of the normalized corpus that load_all_years builds
(columns cal_year, rto, maker, month, regs of main.py line 180 and
lines 245-249; regs is an integer after normalization). -/

structure RegRecord where
  cal_year : Int
  rto : String
  maker : String
  month : String
  regs : Int
deriving DecidableEq, Repr

/-- The nine calendar months April to December, as listed in the
fiscal-window filters of main.py (lines 822 and 827). -/
def MONTHS_APR_DEC : List String :=
  ["APR", "MAY", "JUN", "JUL", "AUG", "SEP", "OCT", "NOV", "DEC"]

/-- The three calendar months January to March. -/
def MONTHS_JAN_MAR : List String := ["JAN", "FEB", "MAR"]

/-- Sum of the regs column of a record list. -/
def regsSum (l : List RegRecord) : Int :=
  (l.map (fun r => r.regs)).sum

/-- The prior fiscal window F25 of main.py lines 821-824: calendar
year 2024 restricted to April-December plus calendar year 2025
restricted to January-March. -/
def f25_data (dd : List RegRecord) : List RegRecord :=
  dd.filter (fun r =>
    (r.cal_year == 2024 && MONTHS_APR_DEC.contains r.month) ||
    (r.cal_year == 2025 && MONTHS_JAN_MAR.contains r.month))

/-- The current fiscal window F26 of main.py lines 826-829: calendar
year 2025 restricted to April-December plus calendar year 2026
restricted to January-March. -/
def f26_data (dd : List RegRecord) : List RegRecord :=
  dd.filter (fun r =>
    (r.cal_year == 2025 && MONTHS_APR_DEC.contains r.month) ||
    (r.cal_year == 2026 && MONTHS_JAN_MAR.contains r.month))

/-- Restriction of a window to the three months of one quarter
(main.py lines 831-832). -/
def monthFilter (l : List RegRecord) (qMonths : List String) : List RegRecord :=
  l.filter (fun r => qMonths.contains r.month)

/-- Per-maker total within a window (main.py lines 857-858). -/
def makerTotal (l : List RegRecord) (m : String) : Int :=
  regsSum (l.filter (fun r => r.maker == m))

/-- Per-month column total within a window (main.py lines 937 and 943). -/
def monthTotal (l : List RegRecord) (mo : String) : Int :=
  regsSum (l.filter (fun r => r.month == mo))

/-- Per-maker per-month cell within a window (main.py lines 885 and 891). -/
def makerMonthTotal (l : List RegRecord) (m mo : String) : Int :=
  regsSum (l.filter (fun r => r.maker == m && r.month == mo))

/-- Code-point lexicographic comparison of character lists, the order
Python uses when comparing strings. -/
def charListLe : List Char → List Char → Bool
  | [], _ => true
  | _ :: _, [] => false
  | a :: as, b :: bs => if a = b then charListLe as bs else decide (a < b)

/-- Lexicographic order on maker names (the Python string order). -/
def nameLe (a b : String) : Bool :=
  charListLe a.toList b.toList

/-- The maker universe of one quarter: the union of the makers seen in
either window, deduplicated and sorted ascending, as Python sorted over
a set (main.py line 834). Insertion sort with a non-strict relation is
a stable sort and models the Python sorted builtin. -/
def allMakers (f25q f26q : List RegRecord) : List String :=
  List.insertionSort (fun a b => nameLe a b = true)
    ((f25q.map (fun r => r.maker)) ++ (f26q.map (fun r => r.maker))).dedup

/-- The growth rule used for individual maker rows of the quarterly
comparison (main.py line 864): percentage change when the prior total
is positive, else 100 when the current total is positive, else 0. -/
def growthRule (p c : Int) : ℚ :=
  if p > 0 then ((c : ℚ) - (p : ℚ)) / (p : ℚ) * 100
  else if c > 0 then 100 else 0

/-- One entry of the maker summary dictionary of main.py lines 855-865. -/
structure MakerSummary where
  maker : String
  f25_total : Int
  f26_total : Int
  growth : ℚ
deriving DecidableEq, Repr

/-- The maker summary of main.py lines 855-865: every maker of the
quarter with a positive total in either window, with both totals and
the growth value. Iteration order follows allMakers, matching the
Python dict insertion order. -/
def maker_summary (f25q f26q : List RegRecord) : List MakerSummary :=
  (allMakers f25q f26q).filterMap (fun m =>
    let p := makerTotal f25q m
    let c := makerTotal f26q m
    if p > 0 ∨ c > 0 then some ⟨m, p, c, growthRule p c⟩ else none)

/-- The summary sorted by prior-window total, descending (main.py
line 867). Insertion sort with the non-strict relation places a new
element before the first existing element with a total not above its
own, which reproduces the stable descending Python sorted with
reverse=True. -/
def sorted_makers (f25q f26q : List RegRecord) : List MakerSummary :=
  List.insertionSort (fun a b => b.f25_total ≤ a.f25_total) (maker_summary f25q f26q)

/-- The month-cell display clamp of main.py lines 886, 892, 914, 920:
positive values are shown as is, other values display as 0. -/
def cellClamp (v : Int) : Int := if v > 0 then v else 0

/-- One output row of a quarterly table: rank, row label, the three
prior-window month cells, prior total, the three current-window month
cells, current total, and growth. -/
structure QRow where
  rank : Nat
  label : String
  f25_cells : List Int
  f25_total : Int
  f26_cells : List Int
  f26_total : Int
  growth : ℚ
deriving DecidableEq, Repr

/-- An individually ranked maker row (main.py lines 872-901). -/
def rowOfSummary (f25q f26q : List RegRecord) (qMonths : List String)
    (rank : Nat) (e : MakerSummary) : QRow :=
  ⟨rank, e.maker,
   qMonths.map (fun mo => cellClamp (makerMonthTotal f25q e.maker mo)),
   e.f25_total,
   qMonths.map (fun mo => cellClamp (makerMonthTotal f26q e.maker mo)),
   e.f26_total,
   e.growth⟩

/-- The top ten rows, ranks 1 to 10 (main.py lines 869, 872-901). -/
def topRows (f25q f26q : List RegRecord) (qMonths : List String) : List QRow :=
  ((sorted_makers f25q f26q).take 10).enum.map
    (fun ie => rowOfSummary f25q f26q qMonths (ie.1 + 1) ie.2)

/-- The synthetic remaining row at rank 11 (main.py lines 903-926),
present only when there are makers ranked 11 and below. Its growth is
percentage change when the aggregated prior total is positive and 0
otherwise (main.py line 906). -/
def remainingRow (f25q f26q : List RegRecord) (qMonths : List String) : Option QRow :=
  let rem := (sorted_makers f25q f26q).drop 10
  if rem.isEmpty then none
  else
    let remMakers := rem.map (fun e => e.maker)
    let p := (rem.map (fun e => e.f25_total)).sum
    let c := (rem.map (fun e => e.f26_total)).sum
    some ⟨11, "Remaining Mfg",
      qMonths.map (fun mo =>
        cellClamp (regsSum (f25q.filter (fun r =>
          remMakers.contains r.maker && r.month == mo)))),
      p,
      qMonths.map (fun mo =>
        cellClamp (regsSum (f26q.filter (fun r =>
          remMakers.contains r.maker && r.month == mo)))),
      c,
      if p > 0 then ((c : ℚ) - (p : ℚ)) / (p : ℚ) * 100 else 0⟩

/-- The market-total row at rank 12 (main.py lines 928-950): raw sums
over every record of each window, with the zero-prior growth convention
of main.py line 930. -/
def tivRow (f25q f26q : List RegRecord) (qMonths : List String) : QRow :=
  let p := regsSum f25q
  let c := regsSum f26q
  ⟨12, "TIV",
   qMonths.map (fun mo => monthTotal f25q mo),
   p,
   qMonths.map (fun mo => monthTotal f26q mo),
   c,
   if p > 0 then ((c : ℚ) - (p : ℚ)) / (p : ℚ) * 100 else 0⟩

/-- One quarterly comparison table. -/
structure QTable where
  top : List QRow
  remaining : Option QRow
  tiv : QRow
deriving DecidableEq, Repr

/-- The quarterly table assembled from the two already-filtered quarter
windows. -/
def quarterTable (f25q f26q : List RegRecord) (qMonths : List String) : QTable :=
  ⟨topRows f25q f26q qMonths, remainingRow f25q f26q qMonths, tivRow f25q f26q qMonths⟩

/-- The quarterly view of main.py lines 820-950 for one quarter: fiscal
windows F25 and F26 are derived from hard-coded calendar years, then
restricted to the three months of the quarter. -/
def quarterlyView (dd : List RegRecord) (qMonths : List String) : QTable :=
  quarterTable (monthFilter (f25_data dd) qMonths) (monthFilter (f26_data dd) qMonths) qMonths

/-! ### The cache of load_all_years (main.py lines 69-70 and 208-266) -/

/-- The module-level cache: the corpus if one has been built, and the
time of the last load. The files and months metadata play no role in
the cache decision and are omitted. -/
structure Cache where
  df : Option (List RegRecord)
  last_load : ℚ
deriving DecidableEq

/-- The recheck interval of main.py line 70. -/
def RECHECK_SECONDS : ℚ := 5

/-- Embedding of load_all_years (main.py lines 208-266). The corpus
produced by scanning the directories is the external input fresh; the
function returns the served corpus and the updated cache. The cached
corpus is served exactly when force is not set, a corpus exists, and
the elapsed time is below the recheck interval; otherwise a full
rebuild replaces the corpus and the timestamp. -/
def load_all_years (force : Bool) (now : ℚ) (cache : Cache)
    (fresh : List RegRecord) : List RegRecord × Cache :=
  match cache.df with
  | some d =>
      if force = false ∧ now - cache.last_load < RECHECK_SECONDS then (d, cache)
      else (fresh, ⟨some fresh, now⟩)
  | none => (fresh, ⟨some fresh, now⟩)

/-! ### The dashboard pivot (main.py lines 747-753) -/

/-- One cell of the dashboard pivot table: the regs of all records of
one maker and one month are summed (pivot_table with the sum
aggregation function, main.py line 747). -/
def pivotCell (dd : List RegRecord) (mk mo : String) : Int :=
  regsSum (dd.filter (fun r => r.maker == mk && r.month == mo))

/-! ### Territory allocation (main.py lines 43-54 and 1000-1025) -/

/-- The static allocation table RTO_ALLOCATIONS of main.py lines 43-54:
region code, Unnati percentage, PACL percentage. -/
def RTO_ALLOCATIONS : List (String × Int × Int) :=
  [("MH27", 100, 0), ("MH29", 100, 0), ("MH31", 60, 40), ("MH32", 0, 100),
   ("MH33", 0, 100), ("MH34", 0, 100), ("MH35", 0, 100), ("MH36", 0, 100),
   ("MH40", 60, 40), ("MH49", 60, 40)]

/-- Does the pattern occur at the start of the list? -/
def startsWithSeq : List Char → List Char → Bool
  | [], _ => true
  | _ :: _, [] => false
  | p :: ps, c :: cs => p == c && startsWithSeq ps cs

/-- Does the pattern occur anywhere in the list? Models the pandas
str.contains substring test. -/
def containsSeq (pat : List Char) : List Char → Bool
  | [] => startsWithSeq pat []
  | c :: cs => startsWithSeq pat (c :: cs) || containsSeq pat cs

/-- The highlighted-maker test of main.py line 1010: the upper-cased
maker name contains the substring MAHINDRA. -/
def containsMahindra (maker : String) : Bool :=
  containsSeq ("MAHINDRA".toList) (maker.toList.map Char.toUpper)

/-- All-makers total of one region inside a window (main.py line 1009). -/
def rtoAll (data : List RegRecord) (code : String) : Int :=
  regsSum (data.filter (fun r => r.rto == code))

/-- Highlighted-maker total of one region inside a window (main.py
line 1010). -/
def rtoMah (data : List RegRecord) (code : String) : Int :=
  regsSum ((data.filter (fun r => r.rto == code)).filter
    (fun r => containsMahindra r.maker))

/-- The four accumulated group totals of calculate_dealer_totals. -/
structure DealerTotals where
  unnati_all : ℚ
  unnati_mah : ℚ
  pacl_all : ℚ
  pacl_mah : ℚ
deriving DecidableEq, Repr

/-- One loop iteration of calculate_dealer_totals (main.py lines
1006-1018): weight the region totals by the two group percentages
divided by 100 and accumulate. -/
def dealerStep (data : List RegRecord) (acc : DealerTotals)
    (alloc : String × Int × Int) : DealerTotals :=
  let allT : ℚ := (rtoAll data alloc.1 : ℚ)
  let mahT : ℚ := (rtoMah data alloc.1 : ℚ)
  let unnati_pct : ℚ := (alloc.2.1 : ℚ) / 100
  let pacl_pct : ℚ := (alloc.2.2 : ℚ) / 100
  ⟨acc.unnati_all + allT * unnati_pct,
   acc.unnati_mah + mahT * unnati_pct,
   acc.pacl_all + allT * pacl_pct,
   acc.pacl_mah + mahT * pacl_pct⟩

/-- Embedding of calculate_dealer_totals (main.py lines 1000-1025):
fold the accumulation loop over the configured allocation table. -/
def calculate_dealer_totals (data : List RegRecord) : DealerTotals :=
  RTO_ALLOCATIONS.foldl (dealerStep data) ⟨0, 0, 0, 0⟩

/-! ### Maker-column selection of the sheet parser (main.py lines
146-152) -/

/-- Embedding of the maker-column choice: the column one to the left of
the lowest-indexed month column, with fallback to column 1 when that
would be negative. The input is the list of month-column indices (the
keys of month_cols); the empty case mirrors the dead else branch of
main.py line 152. -/
def maker_col_of (monthColKeys : List Nat) : Int :=
  match monthColKeys with
  | [] => 1
  | c :: cs =>
      let first_month_col := cs.foldl min c
      let mc : Int := (first_month_col : Int) - 1
      if mc < 0 then 1 else mc

/-! ### Helper lemmas shared by several claims -/

/-- Every entry of the maker summary carries the per-window totals of
its maker, a growth value computed by the growth rule from those
totals, and a positive total in at least one window. -/
theorem maker_summary_mem_spec (f25q f26q : List RegRecord) (e : MakerSummary)
    (he : e ∈ maker_summary f25q f26q) :
    e.f25_total = makerTotal f25q e.maker ∧
    e.f26_total = makerTotal f26q e.maker ∧
    e.growth = growthRule e.f25_total e.f26_total ∧
    (0 < e.f25_total ∨ 0 < e.f26_total) := by
  simp only [maker_summary, List.mem_filterMap] at he
  obtain ⟨m, _, hsome⟩ := he
  by_cases hc : makerTotal f25q m > 0 ∨ makerTotal f26q m > 0
  · rw [if_pos hc] at hsome
    obtain rfl := Option.some.inj hsome
    exact ⟨rfl, rfl, rfl, hc⟩
  · rw [if_neg hc] at hsome
    cases hsome

/-! ### C3 theorems -/

/-- C3: every maker row of the quarterly comparison carries the growth
value required by the rule: percentage change from the prior total when
that total is positive, 100 when the prior total is zero and the
current total is positive; and at the three concrete inputs of the
claim the rule gives 100, 0, and -50 percent respectively. -/
theorem C3_quarterly_growth (f25q f26q : List RegRecord) (e : MakerSummary)
    (he : e ∈ maker_summary f25q f26q) :
    (e.growth = growthRule e.f25_total e.f26_total ∧
     (0 < e.f25_total →
        e.growth = ((e.f26_total : ℚ) - (e.f25_total : ℚ)) / (e.f25_total : ℚ) * 100) ∧
     (e.f25_total = 0 → 0 < e.f26_total → e.growth = 100)) ∧
    growthRule 0 50 = 100 ∧ growthRule 0 0 = 0 ∧ growthRule 200 100 = -50 := by
  obtain ⟨_, _, hg, _⟩ := maker_summary_mem_spec f25q f26q e he
  refine ⟨⟨hg, ?_, ?_⟩, by norm_num [growthRule], by norm_num [growthRule],
    by norm_num [growthRule]⟩
  · intro hp
    rw [hg]
    unfold growthRule
    rw [if_pos hp]
  · intro hz hc
    rw [hg]
    unfold growthRule
    rw [hz]
    rw [if_neg (by omega), if_pos hc]

/-- C3 witness: the theorem applied to the single-maker corpus with
prior total 200 and current total 100. -/
theorem C3_witness :
    (MakerSummary.mk "TATA" 200 100 (growthRule 200 100) ∈
        maker_summary [⟨2024, "MH31", "TATA", "APR", 200⟩]
          [⟨2025, "MH31", "TATA", "APR", 100⟩]) ∧
    (((MakerSummary.mk "TATA" 200 100 (growthRule 200 100)).growth
        = growthRule (MakerSummary.mk "TATA" 200 100 (growthRule 200 100)).f25_total
            (MakerSummary.mk "TATA" 200 100 (growthRule 200 100)).f26_total ∧
      (0 < (MakerSummary.mk "TATA" 200 100 (growthRule 200 100)).f25_total →
        (MakerSummary.mk "TATA" 200 100 (growthRule 200 100)).growth
          = (((MakerSummary.mk "TATA" 200 100 (growthRule 200 100)).f26_total : ℚ)
              - ((MakerSummary.mk "TATA" 200 100 (growthRule 200 100)).f25_total : ℚ))
            / ((MakerSummary.mk "TATA" 200 100 (growthRule 200 100)).f25_total : ℚ) * 100) ∧
      ((MakerSummary.mk "TATA" 200 100 (growthRule 200 100)).f25_total = 0 →
        0 < (MakerSummary.mk "TATA" 200 100 (growthRule 200 100)).f26_total →
        (MakerSummary.mk "TATA" 200 100 (growthRule 200 100)).growth = 100)) ∧
     growthRule 0 50 = 100 ∧ growthRule 0 0 = 0 ∧ growthRule 200 100 = -50) :=
  ⟨by
     have h : maker_summary [⟨2024, "MH31", "TATA", "APR", 200⟩]
         [⟨2025, "MH31", "TATA", "APR", 100⟩]
         = [MakerSummary.mk "TATA" 200 100 (growthRule 200 100)] := rfl
     rw [h]
     exact List.mem_singleton.mpr rfl,
   C3_quarterly_growth [⟨2024, "MH31", "TATA", "APR", 200⟩]
     [⟨2025, "MH31", "TATA", "APR", 100⟩]
     (MakerSummary.mk "TATA" 200 100 (growthRule 200 100)) (by
       have h : maker_summary [⟨2024, "MH31", "TATA", "APR", 200⟩]
           [⟨2025, "MH31", "TATA", "APR", 100⟩]
           = [MakerSummary.mk "TATA" 200 100 (growthRule 200 100)] := rfl
       rw [h]
       exact List.mem_singleton.mpr rfl)⟩

/-! ### C4 theorems -/

/-- The three months of the first fiscal quarter (main.py line 814). -/
def Q1_MONTHS : List String := ["APR", "MAY", "JUN"]

/-- Eleven qualifying makers: ten with positive prior-window totals and
an eleventh whose total is positive only in the current window. -/
def ddC4 : List RegRecord :=
  [⟨2024, "MH31", "MAKER A", "APR", 100⟩,
   ⟨2024, "MH31", "MAKER B", "APR", 90⟩,
   ⟨2024, "MH31", "MAKER C", "APR", 80⟩,
   ⟨2024, "MH31", "MAKER D", "APR", 70⟩,
   ⟨2024, "MH31", "MAKER E", "APR", 60⟩,
   ⟨2024, "MH31", "MAKER F", "APR", 50⟩,
   ⟨2024, "MH31", "MAKER G", "APR", 40⟩,
   ⟨2024, "MH31", "MAKER H", "APR", 30⟩,
   ⟨2024, "MH31", "MAKER I", "APR", 28⟩,
   ⟨2024, "MH31", "MAKER J", "APR", 10⟩,
   ⟨2025, "MH31", "MAKER K", "APR", 50⟩]

/-- C4 counterexample: on a corpus whose rank-11 maker has prior total
0 and current total 50, the remaining row of the quarterly view shows
growth 0, while the rule used for individual entities gives 100 on the
same aggregated totals, so the remaining-row growth is not recomputed
with the same rule. -/
theorem C4_counterexample :
    ((quarterlyView ddC4 Q1_MONTHS).remaining.map (fun row => row.growth)) = some 0 ∧
    ((quarterlyView ddC4 Q1_MONTHS).remaining.map
        (fun row => growthRule row.f25_total row.f26_total)) = some 100 ∧
    (0 : ℚ) ≠ 100 := by
  refine ⟨rfl, rfl, by norm_num⟩

/-- Field content of a present remaining row: aggregated totals over
the makers ranked 11 and below, and the zero-prior-means-zero growth
formula of main.py line 906. -/
theorem remainingRow_some_spec (f25q f26q : List RegRecord) (qMonths : List String)
    (row : QRow) (hrow : remainingRow f25q f26q qMonths = some row) :
    row.f25_total = (((sorted_makers f25q f26q).drop 10).map (fun e => e.f25_total)).sum ∧
    row.f26_total = (((sorted_makers f25q f26q).drop 10).map (fun e => e.f26_total)).sum ∧
    row.growth = (if 0 < row.f25_total then
        ((row.f26_total : ℚ) - (row.f25_total : ℚ)) / (row.f25_total : ℚ) * 100 else 0) := by
  simp only [remainingRow] at hrow
  by_cases h : ((sorted_makers f25q f26q).drop 10).isEmpty = true
  · rw [if_pos h] at hrow
    cases hrow
  · rw [if_neg h] at hrow
    obtain rfl := (Option.some.inj hrow).symm
    exact ⟨rfl, rfl, rfl⟩

/-- C4 (amended): the remaining row aggregates, for each window, the
per-maker totals of the makers ranked 11 and below, but its growth is
computed as percentage change only when the aggregated prior total is
positive and as 0 otherwise: the else-100-when-current-positive branch
of the individual-entity rule is not applied, so a remaining row with
prior total 0 and positive current total shows growth 0 where the
individual rule would give 100. -/
theorem C4_remaining_growth_amended (f25q f26q : List RegRecord) (qMonths : List String)
    (row : QRow) (hrow : remainingRow f25q f26q qMonths = some row) :
    row.f25_total
        = (((sorted_makers f25q f26q).drop 10).map (fun e => makerTotal f25q e.maker)).sum ∧
    row.f26_total
        = (((sorted_makers f25q f26q).drop 10).map (fun e => makerTotal f26q e.maker)).sum ∧
    row.growth = (if 0 < row.f25_total then
        ((row.f26_total : ℚ) - (row.f25_total : ℚ)) / (row.f25_total : ℚ) * 100 else 0) ∧
    (row.f25_total = 0 → 0 < row.f26_total →
        row.growth = 0 ∧ growthRule row.f25_total row.f26_total = 100) := by
  obtain ⟨h1, h2, h3⟩ := remainingRow_some_spec f25q f26q qMonths row hrow
  have hmem : ∀ e ∈ (sorted_makers f25q f26q).drop 10, e ∈ maker_summary f25q f26q := by
    intro e hedrop
    have hs : e ∈ sorted_makers f25q f26q := List.mem_of_mem_drop hedrop
    unfold sorted_makers at hs
    exact (List.mem_insertionSort _).mp hs
  refine ⟨?_, ?_, h3, ?_⟩
  · rw [h1]
    congr 1
    apply List.map_congr_left
    intro e hedrop
    exact (maker_summary_mem_spec f25q f26q e (hmem e hedrop)).1
  · rw [h2]
    congr 1
    apply List.map_congr_left
    intro e hedrop
    exact (maker_summary_mem_spec f25q f26q e (hmem e hedrop)).2.1
  · intro hz hc
    constructor
    · rw [h3, hz]
      norm_num
    · rw [hz]
      unfold growthRule
      rw [if_neg (by omega), if_pos hc]

/-- The prior window of the C4 witness: ten makers with positive
totals. -/
def f25qC4 : List RegRecord :=
  [⟨2024, "MH31", "MAKER A", "APR", 100⟩,
   ⟨2024, "MH31", "MAKER B", "APR", 90⟩,
   ⟨2024, "MH31", "MAKER C", "APR", 80⟩,
   ⟨2024, "MH31", "MAKER D", "APR", 70⟩,
   ⟨2024, "MH31", "MAKER E", "APR", 60⟩,
   ⟨2024, "MH31", "MAKER F", "APR", 50⟩,
   ⟨2024, "MH31", "MAKER G", "APR", 40⟩,
   ⟨2024, "MH31", "MAKER H", "APR", 30⟩,
   ⟨2024, "MH31", "MAKER I", "APR", 28⟩,
   ⟨2024, "MH31", "MAKER J", "APR", 10⟩]

/-- The current window of the C4 witness: one maker ranked eleventh. -/
def f26qC4 : List RegRecord := [⟨2025, "MH31", "MAKER K", "APR", 50⟩]

/-- The remaining row the C4 witness produces. -/
def rowC4 : QRow := ⟨11, "Remaining Mfg", [0, 0, 0], 0, [50, 0, 0], 50, 0⟩

/-- C4 witness: the amended theorem applied to a concrete corpus whose
remaining row has prior total 0 and current total 50. -/
theorem C4_witness :
    remainingRow f25qC4 f26qC4 Q1_MONTHS = some rowC4 ∧
    (rowC4.f25_total
        = (((sorted_makers f25qC4 f26qC4).drop 10).map (fun e => makerTotal f25qC4 e.maker)).sum ∧
     rowC4.f26_total
        = (((sorted_makers f25qC4 f26qC4).drop 10).map (fun e => makerTotal f26qC4 e.maker)).sum ∧
     rowC4.growth = (if 0 < rowC4.f25_total then
        ((rowC4.f26_total : ℚ) - (rowC4.f25_total : ℚ)) / (rowC4.f25_total : ℚ) * 100 else 0) ∧
     (rowC4.f25_total = 0 → 0 < rowC4.f26_total →
        rowC4.growth = 0 ∧ growthRule rowC4.f25_total rowC4.f26_total = 100)) :=
  ⟨rfl, C4_remaining_growth_amended f25qC4 f26qC4 Q1_MONTHS rowC4 rfl⟩

/-! ### C5 theorems -/

/-- C5: a call to load_all_years performs a full rebuild exactly when
the cached corpus is absent, or the elapsed time since the last load is
at least the recheck interval, or force is set; otherwise the cached
corpus and the cache itself are returned unchanged. -/
theorem C5_cache_policy (force : Bool) (now : ℚ) (cache : Cache)
    (fresh : List RegRecord) :
    ((cache.df = none ∨ RECHECK_SECONDS ≤ now - cache.last_load ∨ force = true) →
      load_all_years force now cache fresh = (fresh, ⟨some fresh, now⟩)) ∧
    (∀ d, cache.df = some d → force = false → now - cache.last_load < RECHECK_SECONDS →
      load_all_years force now cache fresh = (d, cache)) := by
  obtain ⟨odf, lastl⟩ := cache
  constructor
  · intro h
    cases odf with
    | none => rfl
    | some d =>
        simp only [load_all_years]
        rw [if_neg]
        rintro ⟨hforce, hlt⟩
        rcases h with h | h | h
        · exact Option.noConfusion h
        · exact absurd hlt (not_lt.mpr h)
        · rw [h] at hforce
          exact Bool.noConfusion hforce
  · intro d hdf hforce hlt
    cases odf with
    | none => exact Option.noConfusion hdf
    | some d2 =>
        obtain rfl : d2 = d := Option.some.inj hdf
        simp only [load_all_years]
        rw [if_pos ⟨hforce, hlt⟩]

/-- C5 witness: with the recheck interval 5, a read at time 10 after a
load at time 0 rebuilds and replaces the cache, while a read at time 3
returns the cached corpus and leaves the cache untouched. -/
theorem C5_witness :
    load_all_years false 10 ⟨some [], 0⟩ [⟨2024, "MH31", "TATA", "APR", 5⟩]
        = ([⟨2024, "MH31", "TATA", "APR", 5⟩],
           ⟨some [⟨2024, "MH31", "TATA", "APR", 5⟩], 10⟩) ∧
    load_all_years false 3 ⟨some [], 0⟩ [⟨2024, "MH31", "TATA", "APR", 5⟩]
        = ([], ⟨some [], 0⟩) :=
  ⟨(C5_cache_policy false 10 ⟨some [], 0⟩ [⟨2024, "MH31", "TATA", "APR", 5⟩]).1
      (Or.inr (Or.inl (by norm_num [RECHECK_SECONDS]))),
   (C5_cache_policy false 3 ⟨some [], 0⟩ [⟨2024, "MH31", "TATA", "APR", 5⟩]).2
      [] rfl rfl (by norm_num [RECHECK_SECONDS])⟩

/-! ### C6 theorems -/

/-- C6: the dashboard pivot sums duplicate records instead of
overwriting them: the pivot cell is additive over corpus concatenation,
and on a corpus holding exactly two records with the given maker and
month, carrying counts a and b, the cell is a plus b. -/
theorem C6_duplicates_summed (l1 l2 l3 : List RegRecord) (r1 r2 : RegRecord)
    (mk mo : String)
    (h1m : r1.maker = mk) (h1o : r1.month = mo)
    (h2m : r2.maker = mk) (h2o : r2.month = mo)
    (hrest : ∀ r, (r ∈ l1 ∨ r ∈ l2 ∨ r ∈ l3) → ¬ (r.maker = mk ∧ r.month = mo)) :
    pivotCell (l1 ++ r1 :: (l2 ++ r2 :: l3)) mk mo = r1.regs + r2.regs ∧
    (∀ xs ys, pivotCell (xs ++ ys) mk mo = pivotCell xs mk mo + pivotCell ys mk mo) := by
  have hadd : ∀ xs ys, pivotCell (xs ++ ys) mk mo = pivotCell xs mk mo + pivotCell ys mk mo := by
    intro xs ys
    simp [pivotCell, regsSum, List.filter_append]
  have hzero : ∀ l : List RegRecord, (∀ r ∈ l, ¬ (r.maker = mk ∧ r.month = mo)) →
      pivotCell l mk mo = 0 := by
    intro l hl
    have hnil : l.filter (fun r => r.maker == mk && r.month == mo) = [] := by
      rw [List.filter_eq_nil_iff]
      intro r hr
      have h := hl r hr
      simp only [Bool.and_eq_true, beq_iff_eq]
      exact fun hc => h ⟨hc.1, hc.2⟩
    simp [pivotCell, regsSum, hnil]
  have hone : ∀ r : RegRecord, r.maker = mk → r.month = mo →
      pivotCell [r] mk mo = r.regs := by
    intro r hm ho
    simp [pivotCell, regsSum, List.filter, hm, ho]
  constructor
  · rw [show l1 ++ r1 :: (l2 ++ r2 :: l3) = l1 ++ ([r1] ++ (l2 ++ ([r2] ++ l3)))
        from by simp]
    rw [hadd, hadd, hadd, hadd]
    rw [hzero l1 (fun r hr => hrest r (Or.inl hr)),
        hzero l2 (fun r hr => hrest r (Or.inr (Or.inl hr))),
        hzero l3 (fun r hr => hrest r (Or.inr (Or.inr hr))),
        hone r1 h1m h1o, hone r2 h2m h2o]
    ring
  · exact hadd

/-- C6 witness: two duplicate TATA April records with counts 7 and 5
in a corpus that also holds an unrelated record pivot to 12. -/
theorem C6_witness :
    pivotCell ([⟨2024, "MH31", "HONDA", "APR", 3⟩] ++
        (⟨2024, "MH31", "TATA", "APR", 7⟩ : RegRecord) ::
          ([] ++ (⟨2024, "MH27", "TATA", "APR", 5⟩ : RegRecord) :: []))
        "TATA" "APR" = 7 + 5 ∧
    (∀ xs ys, pivotCell (xs ++ ys) "TATA" "APR"
        = pivotCell xs "TATA" "APR" + pivotCell ys "TATA" "APR") :=
  C6_duplicates_summed [⟨2024, "MH31", "HONDA", "APR", 3⟩] [] []
    ⟨2024, "MH31", "TATA", "APR", 7⟩ ⟨2024, "MH27", "TATA", "APR", 5⟩
    "TATA" "APR" rfl rfl rfl rfl (by
      rintro r (hr | hr | hr)
      · rw [List.mem_singleton] at hr
        subst hr
        rintro ⟨hm, _⟩
        exact absurd hm (by decide)
      · cases hr
      · cases hr)

/-! ### C9 theorems -/

theorem foldl_min_mem (c : Nat) (cs : List Nat) : cs.foldl min c ∈ c :: cs := by
  induction cs generalizing c with
  | nil => simp
  | cons a as ih =>
      simp only [List.foldl_cons]
      have h := ih (min c a)
      rcases List.mem_cons.mp h with h1 | h1
      · rw [h1]
        rcases le_total c a with hca | hac
        · rw [min_eq_left hca]
          exact List.mem_cons_self _ _
        · rw [min_eq_right hac]
          exact List.mem_cons_of_mem _ (List.mem_cons_self _ _)
      · exact List.mem_cons_of_mem _ (List.mem_cons_of_mem _ h1)

theorem foldl_min_le (c : Nat) (cs : List Nat) : ∀ x ∈ c :: cs, cs.foldl min c ≤ x := by
  induction cs generalizing c with
  | nil =>
      intro x hx
      rcases List.mem_cons.mp hx with h | h
      · rw [h]
        exact Nat.le_refl c
      · cases h
  | cons a as ih =>
      intro x hx
      simp only [List.foldl_cons]
      rcases List.mem_cons.mp hx with h1 | h1
      · rw [h1]
        exact le_trans (ih (min c a) (min c a) (List.mem_cons_self _ _)) (min_le_left _ _)
      · rcases List.mem_cons.mp h1 with h2 | h2
        · rw [h2]
          exact le_trans (ih (min c a) (min c a) (List.mem_cons_self _ _)) (min_le_right _ _)
        · exact ih (min c a) x (List.mem_cons_of_mem _ h2)

/-- C9: for a nonempty set of month-column indices, the maker column is
the column immediately to the left of the lowest-indexed month column,
except that a lowest index of 0 (which would give column -1) falls back
to column 1. -/
theorem C9_maker_col (c : Nat) (cs : List Nat) :
    ∃ m : Nat, m ∈ c :: cs ∧ (∀ x ∈ c :: cs, m ≤ x) ∧
      maker_col_of (c :: cs) = if m = 0 then 1 else (m : Int) - 1 := by
  refine ⟨cs.foldl min c, foldl_min_mem c cs, foldl_min_le c cs, ?_⟩
  have hm : maker_col_of (c :: cs)
      = if (((cs.foldl min c : Nat) : Int) - 1) < 0 then 1
        else ((cs.foldl min c : Nat) : Int) - 1 := rfl
  rw [hm]
  by_cases h : cs.foldl min c = 0
  · rw [h]
    norm_num
  · rw [if_neg (by omega), if_neg h]

/-! ### C10 theorems -/

/-- C10: the fiscal windows of the quarterly view are hard-coded to the
calendar years 2024, 2025, and 2026; a record with any other calendar
year contributes to no cell: removing it from anywhere in the corpus
leaves every quarterly table unchanged. -/
theorem C10_hardcoded_windows (r : RegRecord) (l1 l2 : List RegRecord)
    (qMonths : List String)
    (h24 : r.cal_year ≠ 2024) (h25 : r.cal_year ≠ 2025) (h26 : r.cal_year ≠ 2026) :
    quarterlyView (l1 ++ r :: l2) qMonths = quarterlyView (l1 ++ l2) qMonths := by
  have hb24 : (r.cal_year == 2024) = false := beq_eq_false_iff_ne.mpr h24
  have hb25 : (r.cal_year == 2025) = false := beq_eq_false_iff_ne.mpr h25
  have hb26 : (r.cal_year == 2026) = false := beq_eq_false_iff_ne.mpr h26
  have hf25 : f25_data (l1 ++ r :: l2) = f25_data (l1 ++ l2) := by
    simp [f25_data, List.filter_append, List.filter_cons, hb24, hb25]
  have hf26 : f26_data (l1 ++ r :: l2) = f26_data (l1 ++ l2) := by
    simp [f26_data, List.filter_append, List.filter_cons, hb25, hb26]
  simp only [quarterlyView, hf25, hf26]

/-- C10 witness: a record from calendar year 2023 inserted into a
one-record corpus leaves the first-quarter table unchanged. -/
theorem C10_witness :
    ((⟨2023, "MH31", "TATA", "APR", 7⟩ : RegRecord).cal_year ≠ 2024 ∧
     (⟨2023, "MH31", "TATA", "APR", 7⟩ : RegRecord).cal_year ≠ 2025 ∧
     (⟨2023, "MH31", "TATA", "APR", 7⟩ : RegRecord).cal_year ≠ 2026) ∧
    quarterlyView ([] ++ (⟨2023, "MH31", "TATA", "APR", 7⟩ : RegRecord) ::
        [⟨2024, "MH31", "TATA", "APR", 5⟩]) Q1_MONTHS
      = quarterlyView ([] ++ [⟨2024, "MH31", "TATA", "APR", 5⟩]) Q1_MONTHS :=
  ⟨⟨by decide, by decide, by decide⟩,
   C10_hardcoded_windows ⟨2023, "MH31", "TATA", "APR", 7⟩ []
     [⟨2024, "MH31", "TATA", "APR", 5⟩] Q1_MONTHS
     (by decide) (by decide) (by decide)⟩

/-! ### C8 theorems -/

theorem dealer_fold_spec (data : List RegRecord) (allocs : List (String × Int × Int))
    (acc : DealerTotals) :
    (allocs.foldl (dealerStep data) acc).unnati_all
        = acc.unnati_all + (allocs.map (fun a => (rtoAll data a.1 : ℚ) * (a.2.1 : ℚ) / 100)).sum ∧
    (allocs.foldl (dealerStep data) acc).unnati_mah
        = acc.unnati_mah + (allocs.map (fun a => (rtoMah data a.1 : ℚ) * (a.2.1 : ℚ) / 100)).sum ∧
    (allocs.foldl (dealerStep data) acc).pacl_all
        = acc.pacl_all + (allocs.map (fun a => (rtoAll data a.1 : ℚ) * (a.2.2 : ℚ) / 100)).sum ∧
    (allocs.foldl (dealerStep data) acc).pacl_mah
        = acc.pacl_mah + (allocs.map (fun a => (rtoMah data a.1 : ℚ) * (a.2.2 : ℚ) / 100)).sum := by
  induction allocs generalizing acc with
  | nil => simp
  | cons a as ih =>
      simp only [List.foldl_cons, List.map_cons, List.sum_cons]
      obtain ⟨i1, i2, i3, i4⟩ := ih (dealerStep data acc a)
      refine ⟨?_, ?_, ?_, ?_⟩
      · rw [i1]
        simp only [dealerStep]
        ring
      · rw [i2]
        simp only [dealerStep]
        ring
      · rw [i3]
        simp only [dealerStep]
        ring
      · rw [i4]
        simp only [dealerStep]
        ring

/-- The one-region example window of the claim: region MH31 (weights
Unnati 60, PACL 40) with an all-makers total of 1000 of which 300
belong to the highlighted maker. -/
def dataC8 : List RegRecord :=
  [⟨2025, "MH31", "MAHINDRA AND MAHINDRA", "APR", 300⟩,
   ⟨2025, "MH31", "TATA MOTORS", "APR", 700⟩]

/-- C8: each of the four group totals of calculate_dealer_totals is the
sum over all configured regions of the corresponding per-region total
weighted by that region group percentage divided by 100; and on the
one-region example with weights (60, 40), all-makers total 1000 and
highlighted total 300, the four group totals are 600, 180, 400 and
120. -/
theorem C8_territory_split (data : List RegRecord) :
    ((calculate_dealer_totals data).unnati_all
        = (RTO_ALLOCATIONS.map (fun a => (rtoAll data a.1 : ℚ) * (a.2.1 : ℚ) / 100)).sum ∧
     (calculate_dealer_totals data).unnati_mah
        = (RTO_ALLOCATIONS.map (fun a => (rtoMah data a.1 : ℚ) * (a.2.1 : ℚ) / 100)).sum ∧
     (calculate_dealer_totals data).pacl_all
        = (RTO_ALLOCATIONS.map (fun a => (rtoAll data a.1 : ℚ) * (a.2.2 : ℚ) / 100)).sum ∧
     (calculate_dealer_totals data).pacl_mah
        = (RTO_ALLOCATIONS.map (fun a => (rtoMah data a.1 : ℚ) * (a.2.2 : ℚ) / 100)).sum) ∧
    calculate_dealer_totals dataC8 = ⟨600, 180, 400, 120⟩ := by
  constructor
  · obtain ⟨h1, h2, h3, h4⟩ := dealer_fold_spec data RTO_ALLOCATIONS ⟨0, 0, 0, 0⟩
    refine ⟨?_, ?_, ?_, ?_⟩
    · rw [calculate_dealer_totals, h1]
      ring
    · rw [calculate_dealer_totals, h2]
      ring
    · rw [calculate_dealer_totals, h3]
      ring
    · rw [calculate_dealer_totals, h4]
      ring
  · obtain ⟨h1, h2, h3, h4⟩ := dealer_fold_spec dataC8 RTO_ALLOCATIONS ⟨0, 0, 0, 0⟩
    have a27 : rtoAll dataC8 "MH27" = 0 := rfl
    have a29 : rtoAll dataC8 "MH29" = 0 := rfl
    have a31 : rtoAll dataC8 "MH31" = 1000 := rfl
    have a32 : rtoAll dataC8 "MH32" = 0 := rfl
    have a33 : rtoAll dataC8 "MH33" = 0 := rfl
    have a34 : rtoAll dataC8 "MH34" = 0 := rfl
    have a35 : rtoAll dataC8 "MH35" = 0 := rfl
    have a36 : rtoAll dataC8 "MH36" = 0 := rfl
    have a40 : rtoAll dataC8 "MH40" = 0 := rfl
    have a49 : rtoAll dataC8 "MH49" = 0 := rfl
    have m27 : rtoMah dataC8 "MH27" = 0 := rfl
    have m29 : rtoMah dataC8 "MH29" = 0 := rfl
    have m31 : rtoMah dataC8 "MH31" = 300 := rfl
    have m32 : rtoMah dataC8 "MH32" = 0 := rfl
    have m33 : rtoMah dataC8 "MH33" = 0 := rfl
    have m34 : rtoMah dataC8 "MH34" = 0 := rfl
    have m35 : rtoMah dataC8 "MH35" = 0 := rfl
    have m36 : rtoMah dataC8 "MH36" = 0 := rfl
    have m40 : rtoMah dataC8 "MH40" = 0 := rfl
    have m49 : rtoMah dataC8 "MH49" = 0 := rfl
    have hu1 : (calculate_dealer_totals dataC8).unnati_all = 600 := by
      rw [calculate_dealer_totals, h1]
      simp only [RTO_ALLOCATIONS, List.map_cons, List.map_nil, List.sum_cons, List.sum_nil,
        a27, a29, a31, a32, a33, a34, a35, a36, a40, a49]
      norm_num
    have hu2 : (calculate_dealer_totals dataC8).unnati_mah = 180 := by
      rw [calculate_dealer_totals, h2]
      simp only [RTO_ALLOCATIONS, List.map_cons, List.map_nil, List.sum_cons, List.sum_nil,
        m27, m29, m31, m32, m33, m34, m35, m36, m40, m49]
      norm_num
    have hu3 : (calculate_dealer_totals dataC8).pacl_all = 400 := by
      rw [calculate_dealer_totals, h3]
      simp only [RTO_ALLOCATIONS, List.map_cons, List.map_nil, List.sum_cons, List.sum_nil,
        a27, a29, a31, a32, a33, a34, a35, a36, a40, a49]
      norm_num
    have hu4 : (calculate_dealer_totals dataC8).pacl_mah = 120 := by
      rw [calculate_dealer_totals, h4]
      simp only [RTO_ALLOCATIONS, List.map_cons, List.map_nil, List.sum_cons, List.sum_nil,
        m27, m29, m31, m32, m33, m34, m35, m36, m40, m49]
      norm_num
    have heta : calculate_dealer_totals dataC8
        = ⟨(calculate_dealer_totals dataC8).unnati_all,
           (calculate_dealer_totals dataC8).unnati_mah,
           (calculate_dealer_totals dataC8).pacl_all,
           (calculate_dealer_totals dataC8).pacl_mah⟩ := rfl
    rw [heta, hu1, hu2, hu3, hu4]

/-! ### C7 theorems -/

theorem sum_map_zero {α : Type} (l : List α) : (l.map (fun _ => (0 : Int))).sum = 0 := by
  induction l with
  | nil => rfl
  | cons a l ih => simp [ih]

theorem sum_map_add_int {α : Type} (f g : α → Int) (l : List α) :
    (l.map (fun x => f x + g x)).sum = (l.map f).sum + (l.map g).sum := by
  induction l with
  | nil => simp
  | cons a l ih =>
      simp only [List.map_cons, List.sum_cons, ih]
      ring

theorem sum_ite_not_mem (ms : List String) (x : String) (v : Int) (hx : x ∉ ms) :
    (ms.map (fun m => if x = m then v else 0)).sum = 0 := by
  induction ms with
  | nil => rfl
  | cons a ms ih =>
      have hxa : x ≠ a := fun h => hx (h ▸ List.mem_cons_self a ms)
      have hxm : x ∉ ms := fun h => hx (List.mem_cons_of_mem a h)
      simp [List.map_cons, hxa, ih hxm]

theorem sum_ite_mem (ms : List String) (x : String) (v : Int)
    (hnd : ms.Nodup) (hx : x ∈ ms) :
    (ms.map (fun m => if x = m then v else 0)).sum = v := by
  induction ms with
  | nil => cases hx
  | cons a ms ih =>
      rcases List.mem_cons.mp hx with h | h
      · subst h
        have hnotin : x ∉ ms := (List.nodup_cons.mp hnd).1
        simp [sum_ite_not_mem ms x v hnotin]
      · have hxa : x ≠ a := by
          intro he
          rw [he] at h
          exact (List.nodup_cons.mp hnd).1 h
        simp [hxa, ih (List.nodup_cons.mp hnd).2 h]

theorem makerTotal_cons (r : RegRecord) (l : List RegRecord) (m : String) :
    makerTotal (r :: l) m = (if r.maker = m then r.regs else 0) + makerTotal l m := by
  simp only [makerTotal, regsSum, List.filter_cons]
  by_cases h : r.maker = m
  · simp [h]
  · simp [h]

/-- Summing the per-maker totals over any duplicate-free cover of the
makers of a window recovers the window total: the market-total row
includes every maker, not only the displayed ones. -/
theorem sum_makerTotal_partition (ms : List String) (l : List RegRecord)
    (hnd : ms.Nodup) (hcov : ∀ r ∈ l, r.maker ∈ ms) :
    (ms.map (fun m => makerTotal l m)).sum = regsSum l := by
  induction l with
  | nil =>
      rw [show (ms.map (fun m => makerTotal ([] : List RegRecord) m))
          = ms.map (fun _ => (0 : Int)) from rfl]
      rw [sum_map_zero]
      rfl
  | cons r l ih =>
      have hcov2 : ∀ x ∈ l, x.maker ∈ ms := fun x hx => hcov x (List.mem_cons_of_mem r hx)
      have hr : r.maker ∈ ms := hcov r (List.mem_cons_self r l)
      have h1 : (ms.map (fun m => makerTotal (r :: l) m)).sum
          = (ms.map (fun m => (if r.maker = m then r.regs else 0) + makerTotal l m)).sum := by
        congr 1
        exact List.map_congr_left (fun m _ => makerTotal_cons r l m)
      rw [h1, sum_map_add_int, sum_ite_mem ms r.maker r.regs hnd hr, ih hcov2]
      simp [regsSum]

theorem allMakers_nodup (f25q f26q : List RegRecord) : (allMakers f25q f26q).Nodup :=
  ((List.perm_insertionSort _ _).nodup_iff).mpr (List.nodup_dedup _)

theorem maker_mem_allMakers (f25q f26q : List RegRecord) (r : RegRecord)
    (h : r ∈ f25q ∨ r ∈ f26q) : r.maker ∈ allMakers f25q f26q := by
  unfold allMakers
  rw [List.mem_insertionSort, List.mem_dedup]
  rcases h with h | h
  · exact List.mem_append.mpr (Or.inl (List.mem_map_of_mem _ h))
  · exact List.mem_append.mpr (Or.inr (List.mem_map_of_mem _ h))

/-- C7: with 15 qualifying makers, the quarterly table has exactly 10
individually ranked rows carrying ranks 1 to 10 and ordered by
prior-window total descending; one remaining row aggregating the 5
makers ranked 11 and below, whose totals are the sums of those makers
per-window totals; and a market-total row whose per-window totals equal
the sum over every record of the window, which in turn is the sum of
the per-maker totals over all makers of the quarter, displayed or not,
with per-month cells that are the raw month column totals. -/
theorem C7_top10_split (f25q f26q : List RegRecord) (qMonths : List String)
    (hlen : (sorted_makers f25q f26q).length = 15) :
    (quarterTable f25q f26q qMonths).top.length = 10 ∧
    ((quarterTable f25q f26q qMonths).top.map (fun row => row.rank))
        = (List.range 10).map (fun i => i + 1) ∧
    List.Pairwise (fun x y : Int => y ≤ x)
      ((quarterTable f25q f26q qMonths).top.map (fun row => row.f25_total)) ∧
    (∃ row, (quarterTable f25q f26q qMonths).remaining = some row ∧
       ((sorted_makers f25q f26q).drop 10).length = 5 ∧
       row.f25_total = (((sorted_makers f25q f26q).drop 10).map (fun e => e.f25_total)).sum ∧
       row.f26_total = (((sorted_makers f25q f26q).drop 10).map (fun e => e.f26_total)).sum) ∧
    (quarterTable f25q f26q qMonths).tiv.f25_total = regsSum f25q ∧
    (quarterTable f25q f26q qMonths).tiv.f25_total
        = ((allMakers f25q f26q).map (fun m => makerTotal f25q m)).sum ∧
    (quarterTable f25q f26q qMonths).tiv.f26_total = regsSum f26q ∧
    (quarterTable f25q f26q qMonths).tiv.f26_total
        = ((allMakers f25q f26q).map (fun m => makerTotal f26q m)).sum ∧
    (quarterTable f25q f26q qMonths).tiv.f25_cells
        = qMonths.map (fun mo => monthTotal f25q mo) := by
  have htoplen : (quarterTable f25q f26q qMonths).top.length = 10 := by
    simp [quarterTable, topRows, List.length_take, hlen]
  have hranks : ((quarterTable f25q f26q qMonths).top.map (fun row => row.rank))
      = (List.range 10).map (fun i => i + 1) := by
    simp only [quarterTable, topRows, List.map_map]
    rw [show ((fun row : QRow => row.rank) ∘ fun ie : Nat × MakerSummary =>
        rowOfSummary f25q f26q qMonths (ie.1 + 1) ie.2)
        = ((fun i : Nat => i + 1) ∘ Prod.fst) from rfl]
    rw [← List.map_map, List.enum_map_fst, List.length_take, hlen]
    norm_num
  have hsorted : List.Pairwise (fun a b : MakerSummary => b.f25_total ≤ a.f25_total)
      (sorted_makers f25q f26q) := by
    haveI ht : IsTotal MakerSummary (fun a b => b.f25_total ≤ a.f25_total) :=
      ⟨fun a b => le_total b.f25_total a.f25_total⟩
    haveI htr : IsTrans MakerSummary (fun a b => b.f25_total ≤ a.f25_total) :=
      ⟨fun a b c h1 h2 => le_trans h2 h1⟩
    exact List.sorted_insertionSort _ _
  have hpw : List.Pairwise (fun x y : Int => y ≤ x)
      ((quarterTable f25q f26q qMonths).top.map (fun row => row.f25_total)) := by
    have hmapeq : (quarterTable f25q f26q qMonths).top.map (fun row => row.f25_total)
        = ((sorted_makers f25q f26q).take 10).map (fun e => e.f25_total) := by
      simp only [quarterTable, topRows, List.map_map]
      rw [show ((fun row : QRow => row.f25_total) ∘ fun ie : Nat × MakerSummary =>
          rowOfSummary f25q f26q qMonths (ie.1 + 1) ie.2)
          = ((fun e : MakerSummary => e.f25_total) ∘ Prod.snd) from rfl]
      rw [← List.map_map, List.enum_map_snd]
    rw [hmapeq]
    exact List.pairwise_map.mpr
      (List.Pairwise.sublist (List.take_sublist 10 _) hsorted)
  have hdroplen : ((sorted_makers f25q f26q).drop 10).length = 5 := by
    rw [List.length_drop, hlen]
  have hne : ((sorted_makers f25q f26q).drop 10).isEmpty ≠ true := by
    intro hcon
    rw [List.isEmpty_iff_length_eq_zero, hdroplen] at hcon
    exact absurd hcon (by norm_num)
  obtain ⟨row, hrow⟩ : ∃ row, remainingRow f25q f26q qMonths = some row := by
    simp only [remainingRow]
    rw [if_neg hne]
    exact ⟨_, rfl⟩
  obtain ⟨hp1, hp2, _⟩ := remainingRow_some_spec f25q f26q qMonths row hrow
  refine ⟨htoplen, hranks, hpw, ⟨row, hrow, hdroplen, hp1, hp2⟩, rfl, ?_, rfl, ?_, rfl⟩
  · exact (sum_makerTotal_partition _ _ (allMakers_nodup f25q f26q)
      (fun r hr => maker_mem_allMakers f25q f26q r (Or.inl hr))).symm
  · exact (sum_makerTotal_partition _ _ (allMakers_nodup f25q f26q)
      (fun r hr => maker_mem_allMakers f25q f26q r (Or.inr hr))).symm

/-- The prior window of the C7 witness: fifteen makers with distinct
positive totals. -/
def f25qC7 : List RegRecord :=
  [⟨2024, "MH31", "M01", "APR", 150⟩, ⟨2024, "MH31", "M02", "APR", 140⟩,
   ⟨2024, "MH31", "M03", "APR", 130⟩, ⟨2024, "MH31", "M04", "APR", 120⟩,
   ⟨2024, "MH31", "M05", "APR", 110⟩, ⟨2024, "MH31", "M06", "APR", 100⟩,
   ⟨2024, "MH31", "M07", "APR", 90⟩, ⟨2024, "MH31", "M08", "APR", 80⟩,
   ⟨2024, "MH31", "M09", "APR", 70⟩, ⟨2024, "MH31", "M10", "APR", 60⟩,
   ⟨2024, "MH31", "M11", "APR", 50⟩, ⟨2024, "MH31", "M12", "APR", 40⟩,
   ⟨2024, "MH31", "M13", "APR", 30⟩, ⟨2024, "MH31", "M14", "APR", 20⟩,
   ⟨2024, "MH31", "M15", "APR", 10⟩]

/-- The current window of the C7 witness: empty. -/
def f26qC7 : List RegRecord := []

/-- C7 witness: the theorem applied to a concrete quarter with 15
qualifying makers. -/
theorem C7_witness :
    (sorted_makers f25qC7 f26qC7).length = 15 ∧
    ((quarterTable f25qC7 f26qC7 Q1_MONTHS).top.length = 10 ∧
     ((quarterTable f25qC7 f26qC7 Q1_MONTHS).top.map (fun row => row.rank))
         = (List.range 10).map (fun i => i + 1) ∧
     List.Pairwise (fun x y : Int => y ≤ x)
       ((quarterTable f25qC7 f26qC7 Q1_MONTHS).top.map (fun row => row.f25_total)) ∧
     (∃ row, (quarterTable f25qC7 f26qC7 Q1_MONTHS).remaining = some row ∧
        ((sorted_makers f25qC7 f26qC7).drop 10).length = 5 ∧
        row.f25_total = (((sorted_makers f25qC7 f26qC7).drop 10).map (fun e => e.f25_total)).sum ∧
        row.f26_total = (((sorted_makers f25qC7 f26qC7).drop 10).map (fun e => e.f26_total)).sum) ∧
     (quarterTable f25qC7 f26qC7 Q1_MONTHS).tiv.f25_total = regsSum f25qC7 ∧
     (quarterTable f25qC7 f26qC7 Q1_MONTHS).tiv.f25_total
         = ((allMakers f25qC7 f26qC7).map (fun m => makerTotal f25qC7 m)).sum ∧
     (quarterTable f25qC7 f26qC7 Q1_MONTHS).tiv.f26_total = regsSum f26qC7 ∧
     (quarterTable f25qC7 f26qC7 Q1_MONTHS).tiv.f26_total
         = ((allMakers f25qC7 f26qC7).map (fun m => makerTotal f26qC7 m)).sum ∧
     (quarterTable f25qC7 f26qC7 Q1_MONTHS).tiv.f25_cells
         = Q1_MONTHS.map (fun mo => monthTotal f25qC7 mo)) :=
  ⟨rfl, C7_top10_split f25qC7 f26qC7 Q1_MONTHS rfl⟩

end RTODash
